import Mathlib

/-!
Verification of the NodeModal path-addressed document mutation engine
(`src/features/modals/NodeModal/index.tsx`): value inference, path
mutation (`setAtPath`), row projection (`normalizeNodeData`,
`jsonPathToString`), edit-buffer seeding, and the save/cancel session
logic, shallowly embedded over a JSON value model.
-/

/-- JSON-like document values. JavaScript numbers are modelled as exact
rationals (the claims exercise only small integers, where IEEE doubles
are exact); object fields are an insertion-ordered association list, as
JS object properties are. -/
inductive JValue where
  | jnull
  | jbool (b : Bool)
  | jnum (q : Rat)
  | jstr (s : String)
  | jarr (elems : List JValue)
  | jobj (fields : List (String × JValue))
deriving Repr

/-- A path segment: an array index (a non-negative JS number) or an
object key, as in `NodeData["path"]`. -/
inductive Seg where
  | nat (n : Nat)
  | str (s : String)
deriving Repr, DecidableEq

/-- One display row of a node (`NodeData["text"]`): optional key, value,
and type tag ("array", "object", or a scalar tag). An absent key is
`none`. -/
structure Row where
  key : Option String
  value : JValue
  type : String
deriving Repr

/-- JS object property assignment `obj[k] = v`: updates the value in
place when the key exists (keeping its position), otherwise appends in
insertion order. -/
def objSet : List (String × JValue) → String → JValue → List (String × JValue)
  | [], k, v => [(k, v)]
  | (k0, v0) :: rest, k, v =>
    if k0 = k then (k0, v) :: rest else (k0, v0) :: objSet rest k v

/-- The opening curly brace character. -/
def lbrace : Char := Char.ofNat 123

/-- The closing curly brace character. -/
def rbrace : Char := Char.ofNat 125

/-- JSON insignificant whitespace characters. -/
def isJsonWs (c : Char) : Bool :=
  c = ' ' || c = '\t' || c = '\n' || c = '\r'

/-- Drop leading JSON whitespace. -/
def skipWs : List Char → List Char
  | c :: cs => if isJsonWs c then skipWs cs else c :: cs
  | [] => []

/-- Numeric value of a decimal digit character. -/
def digitVal (c : Char) : Nat := c.toNat - 48

/-- Split off a maximal (possibly empty) run of decimal digits. -/
def takeDigits : List Char → (List Char × List Char)
  | c :: cs =>
    if c.isDigit then
      let (ds, r) := takeDigits cs
      (c :: ds, r)
    else ([], c :: cs)
  | [] => ([], [])

/-- Value of a run of decimal digits. -/
def digitsToNat (ds : List Char) : Nat :=
  ds.foldl (fun acc c => acc * 10 + digitVal c) 0

/-- Ten to a natural power. -/
def pow10 : Nat → Nat
  | 0 => 1
  | n + 1 => 10 * pow10 n

/-- The rational value of a decimal mantissa with `fracLen` fractional
digits and decimal exponent `e`. -/
def ratOfParts (mant : Int) (fracLen : Nat) (e : Int) : Rat :=
  let e2 : Int := e - Int.ofNat fracLen
  if 0 ≤ e2 then mkRat (mant * Int.ofNat (pow10 e2.toNat)) 1
  else mkRat mant (pow10 (-e2).toNat)

/-- Strict JSON integer part (`0`, or a nonzero digit followed by
digits; a leading zero may not be followed by another digit), returned
as its digit characters. -/
def parseIntDigits : List Char → Except Unit (List Char × List Char)
  | [] => .error ()
  | c :: cs =>
    if c = '0' then
      match cs with
      | d :: _ => if d.isDigit then .error () else .ok (['0'], cs)
      | [] => .ok (['0'], [])
    else if c.isDigit then
      let (ds, r) := takeDigits cs
      .ok (c :: ds, r)
    else .error ()

/-- Optional JSON fraction part: `.` followed by one or more digits,
returned as the digit characters (empty when absent). -/
def parseFracDigits : List Char → Except Unit (List Char × List Char)
  | '.' :: r =>
    match takeDigits r with
    | ([], _) => .error ()
    | (ds, rest) => .ok (ds, rest)
  | cs => .ok ([], cs)

/-- Optional JSON exponent part: `e`/`E`, optional sign, digits. -/
def parseExp : List Char → Except Unit (Int × List Char)
  | c :: r =>
    if c = 'e' || c = 'E' then
      match r with
      | s :: r2 =>
        if s = '+' then
          match takeDigits r2 with
          | ([], _) => .error ()
          | (ds, rest) => .ok (Int.ofNat (digitsToNat ds), rest)
        else if s = '-' then
          match takeDigits r2 with
          | ([], _) => .error ()
          | (ds, rest) => .ok (-Int.ofNat (digitsToNat ds), rest)
        else
          match takeDigits (s :: r2) with
          | ([], _) => .error ()
          | (ds, rest) => .ok (Int.ofNat (digitsToNat ds), rest)
      | [] => .error ()
    else .ok (0, c :: r)
  | [] => .ok (0, [])

/-- JSON number token after an optional leading minus sign. -/
def parseNumAfterSign (cs : List Char) : Except Unit (Rat × List Char) :=
  match parseIntDigits cs with
  | .error _ => .error ()
  | .ok (ids, r1) =>
    match parseFracDigits r1 with
    | .error _ => .error ()
    | .ok (fds, r2) =>
      match parseExp r2 with
      | .error _ => .error ()
      | .ok (e, r3) =>
        .ok (ratOfParts (Int.ofNat (digitsToNat (ids ++ fds))) fds.length e, r3)

/-- Full JSON number token, sign included. -/
def parseNumberTok : List Char → Except Unit (Rat × List Char)
  | '-' :: cs =>
    match parseNumAfterSign cs with
    | .ok (q, r) => .ok (-q, r)
    | .error _ => .error ()
  | cs => parseNumAfterSign cs

/-- JSON string escape characters (other than `\u`). -/
def escChar : Char → Option Char
  | '"' => some '"'
  | '\\' => some '\\'
  | '/' => some '/'
  | 'b' => some (Char.ofNat 8)
  | 'f' => some (Char.ofNat 12)
  | 'n' => some '\n'
  | 'r' => some '\r'
  | 't' => some '\t'
  | _ => none

/-- Value of a hexadecimal digit character, if it is one. -/
def hexVal (c : Char) : Option Nat :=
  if c.isDigit then some (c.toNat - 48)
  else if 'a' ≤ c && c ≤ 'f' then some (c.toNat - 87)
  else if 'A' ≤ c && c ≤ 'F' then some (c.toNat - 55)
  else none

/-- Body of a JSON string after the opening quote: characters up to the
closing quote, with escapes decoded; raw control characters are
rejected, as `JSON.parse` does. Fuel-indexed; fuel one more than the
input length always suffices. -/
def parseStrChars : Nat → List Char → Except Unit (List Char × List Char)
  | 0, _ => .error ()
  | _ + 1, [] => .error ()
  | _ + 1, '"' :: rest => .ok ([], rest)
  | fuel + 1, '\\' :: rest =>
    match rest with
    | [] => .error ()
    | e :: rest2 =>
      if e = 'u' then
        match rest2 with
        | h1 :: h2 :: h3 :: h4 :: rest3 =>
          match hexVal h1, hexVal h2, hexVal h3, hexVal h4 with
          | some a, some b, some c, some d =>
            match parseStrChars fuel rest3 with
            | .ok (s, r) => .ok (Char.ofNat (((a * 16 + b) * 16 + c) * 16 + d) :: s, r)
            | .error _ => .error ()
          | _, _, _, _ => .error ()
        | _ => .error ()
      else
        match escChar e with
        | some c =>
          match parseStrChars fuel rest2 with
          | .ok (s, r) => .ok (c :: s, r)
          | .error _ => .error ()
        | none => .error ()
  | fuel + 1, c :: rest =>
    if c.toNat < 32 then .error ()
    else
      match parseStrChars fuel rest with
      | .ok (s, r) => .ok (c :: s, r)
      | .error _ => .error ()

/-- Task for the fuel-indexed JSON parser: parse one value, the
elements of an array, or the members of an object. -/
inductive ParseTask where
  | value (cs : List Char)
  | elems (cs : List Char)
  | members (cs : List Char)

/-- Result of a `ParseTask`, with the remaining input. -/
inductive ParseOut where
  | value (v : JValue) (rest : List Char)
  | elems (vs : List JValue) (rest : List Char)
  | members (ms : List (String × JValue)) (rest : List Char)

/-- Modelled from the spec: the strict JSON-literal parser (`JSON.parse`
of the JavaScript runtime; the `contentToJson` collaborator of §6 is
this parser for the JSON format, and `inferValue` calls `JSON.parse`
directly). Parses one value / array elements / object members and
returns the remaining input. Fuel-indexed; fuel one more than the
input length always suffices since every nesting level consumes at
least one character. Duplicate object keys are resolved by property
assignment (last value wins, first position kept), as in JS. -/
def parseF : Nat → ParseTask → Except Unit ParseOut
  | 0, _ => .error ()
  | fuel + 1, .value cs0 =>
    match skipWs cs0 with
    | [] => .error ()
    | c :: rest =>
      if c = 'n' then
        match rest with
        | 'u' :: 'l' :: 'l' :: r => .ok (.value .jnull r)
        | _ => .error ()
      else if c = 't' then
        match rest with
        | 'r' :: 'u' :: 'e' :: r => .ok (.value (.jbool true) r)
        | _ => .error ()
      else if c = 'f' then
        match rest with
        | 'a' :: 'l' :: 's' :: 'e' :: r => .ok (.value (.jbool false) r)
        | _ => .error ()
      else if c = '"' then
        match parseStrChars (rest.length + 1) rest with
        | .ok (scs, r) => .ok (.value (.jstr (String.mk scs)) r)
        | .error _ => .error ()
      else if c = '[' then
        match skipWs rest with
        | ']' :: r => .ok (.value (.jarr []) r)
        | cs2 =>
          match parseF fuel (.elems cs2) with
          | .ok (.elems vs r) => .ok (.value (.jarr vs) r)
          | _ => .error ()
      else if c = lbrace then
        match skipWs rest with
        | c2 :: r =>
          if c2 = rbrace then .ok (.value (.jobj []) r)
          else
            match parseF fuel (.members (c2 :: r)) with
            | .ok (.members ms r2) =>
              .ok (.value (.jobj (ms.foldl (fun acc kv => objSet acc kv.1 kv.2) [])) r2)
            | _ => .error ()
        | [] => .error ()
      else if c = '-' || c.isDigit then
        match parseNumberTok (c :: rest) with
        | .ok (q, r) => .ok (.value (.jnum q) r)
        | .error _ => .error ()
      else .error ()
  | fuel + 1, .elems cs =>
    match parseF fuel (.value cs) with
    | .ok (.value v r) =>
      match skipWs r with
      | ',' :: r2 =>
        match parseF fuel (.elems r2) with
        | .ok (.elems vs r3) => .ok (.elems (v :: vs) r3)
        | _ => .error ()
      | ']' :: r2 => .ok (.elems [v] r2)
      | _ => .error ()
    | _ => .error ()
  | fuel + 1, .members cs =>
    match skipWs cs with
    | '"' :: r =>
      match parseStrChars (r.length + 1) r with
      | .error _ => .error ()
      | .ok (kcs, r2) =>
        match skipWs r2 with
        | ':' :: r3 =>
          match parseF fuel (.value r3) with
          | .ok (.value v r4) =>
            match skipWs r4 with
            | c5 :: r5 =>
              if c5 = ',' then
                match parseF fuel (.members r5) with
                | .ok (.members ms r6) => .ok (.members ((String.mk kcs, v) :: ms) r6)
                | _ => .error ()
              else if c5 = rbrace then .ok (.members [(String.mk kcs, v)] r5)
              else .error ()
            | [] => .error ()
          | _ => .error ()
        | _ => .error ()
    | _ => .error ()

/-- Parse one JSON value, returning it with the remaining input. -/
def parseValueF (fuel : Nat) (cs : List Char) : Except Unit (JValue × List Char) :=
  match parseF fuel (.value cs) with
  | .ok (.value v r) => .ok (v, r)
  | _ => .error ()

/-- `JSON.parse` on a whole string: one value, surrounding whitespace
allowed, nothing else. Errors are a value (`Except.error`), never an
exception. -/
def jsonParse (s : String) : Except Unit JValue :=
  match parseValueF (s.length + 1) s.toList with
  | .error _ => .error ()
  | .ok (v, rest) =>
    match skipWs rest with
    | [] => .ok v
    | _ => .error ()

/-- Body of the numeric pattern `\d+(?:\.\d+)?$`: one or more digits,
optionally a dot and one or more digits, then end of input. -/
def numericBody (cs : List Char) : Bool :=
  match takeDigits cs with
  | ([], _) => false
  | (_ :: _, []) => true
  | (_ :: _, '.' :: r) =>
    match takeDigits r with
    | (_ :: _, []) => true
    | _ => false
  | _ => false

/-- The regular expression `/^-?\d+(?:\.\d+)?$/` used by `inferValue`. -/
def numericPattern (s : String) : Bool :=
  match s.toList with
  | '-' :: cs => numericBody cs
  | cs => numericBody cs

/-- Decimal value of `digits(.digits)?`. -/
def parseDecimalBody (cs : List Char) : Rat :=
  let (ds, r) := takeDigits cs
  match r with
  | '.' :: r2 =>
    let (fs, _) := takeDigits r2
    mkRat (Int.ofNat (digitsToNat (ds ++ fs))) (pow10 fs.length)
  | _ => mkRat (Int.ofNat (digitsToNat ds)) 1

/-- JS `Number(val)` restricted to strings matching `numericPattern`
(the only shape `inferValue` applies it to): sign and decimal value. -/
def jsNumber (s : String) : Rat :=
  match s.toList with
  | '-' :: cs => -(parseDecimalBody cs)
  | cs => parseDecimalBody cs

/-- The `catch` branch of `inferValue`: numeric pattern, then the
boolean literals, else the raw string itself. -/
def inferFallback (val : String) : JValue :=
  if numericPattern val then .jnum (jsNumber val)
  else if val = "true" then .jbool true
  else if val = "false" then .jbool false
  else .jstr val

/-- `inferValue` from NodeModal: empty string is null; otherwise a
strict JSON parse, falling back (on parse failure) to the numeric
pattern, the boolean literals, and finally the opaque string. -/
def inferValue (val : String) : JValue :=
  if val = "" then .jnull
  else
    match jsonParse val with
    | .ok v => v
    | .error _ => inferFallback val

/-- Smallest exponent `k` (searching `k, k+1, ...` with the given fuel)
such that `den` divides `10^k`, if any. -/
def findDecExp : Nat → Nat → Nat → Option Nat
  | 0, _, _ => none
  | fuel + 1, k, den => if pow10 k % den = 0 then some k else findDecExp fuel (k + 1) den

/-- Left-pad a digit string with zeros to length `k`. -/
def padZeros (s : String) (k : Nat) : String :=
  if s.length < k then String.mk (List.replicate (k - s.length) '0') ++ s else s

/-- JS number-to-string rendering: integers render as their decimal
digits, and a non-integer with a terminating decimal expansion (every
number produced by the JSON parser is of this form) renders as its
exact shortest decimal, as JS does for such values; other rationals
(unreachable from the modelled flows) fall back to fraction text. -/
def renderNum (q : Rat) : String :=
  if q.den = 1 then toString q.num
  else
    match findDecExp q.den 1 q.den with
    | some k =>
      let scaled := q.num.natAbs * (pow10 k / q.den)
      (if q.num < 0 then "-" else "") ++
        toString (scaled / pow10 k) ++ "." ++ padZeros (toString (scaled % pow10 k)) k
    | none => toString q.num ++ "/" ++ toString q.den

mutual

/-- JS `String(v)` string conversion: scalars render to their literal
text, arrays comma-join their elements (null rendering as empty), and
plain objects render as "[object Object]". -/
def jsToString : JValue → String
  | .jnull => "null"
  | .jbool true => "true"
  | .jbool false => "false"
  | .jnum q => renderNum q
  | .jstr s => s
  | .jarr xs => jsToStringElems xs
  | .jobj _ => "[object Object]"

/-- Array element join of JS `Array.prototype.toString` (separator ",";
null and undefined elements render empty). -/
def jsToStringElems : List JValue → String
  | [] => ""
  | [JValue.jnull] => ""
  | [v] => jsToString v
  | JValue.jnull :: rest => "," ++ jsToStringElems rest
  | v :: rest => jsToString v ++ "," ++ jsToStringElems rest

end

/-- `String(value ?? "")` as used for buffer seeding and input
defaults: null (and undefined) become the empty string, all other
values their JS string rendering. -/
def seedString : JValue → String
  | .jnull => ""
  | v => jsToString v

/-- JS property read `target[p]`: object keys by lookup (a numeric
segment reads the corresponding string key, as JS coerces), array
indices positionally (out of range is undefined); property reads on
scalars yield undefined. Returns `none` for the absent/undefined case
tested by `setAtPath`. -/
def getProp : JValue → Seg → Option JValue
  | .jobj fs, .str k => List.lookup k fs
  | .jobj fs, .nat n => List.lookup (toString n) fs
  | .jarr xs, .nat n => xs.get? n
  | _, _ => none

/-- JS array index assignment `arr[n] = v`, extending with holes (which
serialize as null) past the end. -/
def arrSet (xs : List JValue) (n : Nat) (v : JValue) : List JValue :=
  if n < xs.length then xs.set n v
  else xs ++ List.replicate (n - xs.length) .jnull ++ [v]

/-- JS property assignment `target[p] = v` on a container (objects
coerce numeric segments to string keys); assignment on any other value
has no observable effect on the document (none of the modelled flows
reaches that case). -/
def setProp : JValue → Seg → JValue → JValue
  | .jobj fs, .str k, v => .jobj (objSet fs k v)
  | .jobj fs, .nat n, v => .jobj (objSet fs (toString n) v)
  | .jarr xs, .nat n, v => .jarr (arrSet xs n v)
  | t, _, _ => t

/-- `typeof path[i + 1] === "number"` on the remaining path: whether the
next segment after the current one is numeric (false past the end). -/
def nextIsNum : List Seg → Bool
  | Seg.nat _ :: _ => true
  | _ => false

/-- The walk-and-assign loop of `setAtPath` for a non-null key: follow
each segment, materializing an absent slot as an empty array when the
next segment is numeric and as an empty object otherwise, and assign
`value` at `key` in the final target. The source mutates in place; this
is the resulting document. -/
def walkSet : JValue → List Seg → String → JValue → JValue
  | target, [], key, value => setProp target (.str key) value
  | target, p :: rest, key, value =>
    match getProp target p with
    | some child => setProp target p (walkSet child rest key value)
    | none =>
      setProp target p
        (walkSet (if nextIsNum rest then JValue.jarr [] else JValue.jobj []) rest key value)

/-- `setAtPath` from NodeModal. When `key` is null the source returns
`value` itself after the walk (its sole caller, the scalar branch of
`handleSave`, then uses that return as the whole new document and
discards the walked root); when `key` is a string, the document with
`value` assigned at `key` under `path` is returned. -/
def setAtPath (doc : JValue) (path : List Seg) (key : Option String) (value : JValue) : JValue :=
  match key with
  | none => value
  | some k => walkSet doc path k value

/-- Read the value at a path (none when any segment is absent). -/
def getAtPath : JValue → List Seg → Option JValue
  | doc, [] => some doc
  | doc, p :: rest =>
    match getProp doc p with
    | some c => getAtPath c rest
    | none => none

/-- JS truthiness of `row.key`: present and non-empty. -/
def keyTruthy : Option String → Bool
  | some k => k != ""
  | none => false

/-- The editable-row predicate used by `normalizeNodeData`, the buffer
seeding effect, the edit-mode rendering, and the composite save branch:
`row.type !== "array" && row.type !== "object" && row.key && row.key
!== "details"`. -/
def isEditableRow (r : Row) : Bool :=
  r.type != "array" && r.type != "object" && keyTruthy r.key && r.key != some "details"

/-- The buffer-seeding `forEach` of the modal's open/node-change effect
(also the cancel handler), indices starting at `i`: one entry
`idx ↦ String(row.value ?? "")` per editable row. -/
def seedBufferFrom : Nat → List Row → List (Nat × String)
  | _, [] => []
  | i, r :: rest =>
    (if isEditableRow r then [(i, seedString r.value)] else []) ++ seedBufferFrom (i + 1) rest

/-- The edit buffer seeded on modal open, node change, or cancel. -/
def seedBuffer (rows : List Row) : List (Nat × String) :=
  seedBufferFrom 0 rows

/-- The keyed display object `normalizeNodeData` accumulates: every row
passing the editable-row predicate contributes `obj[row.key] =
row.value`. -/
def buildDisplayObj (rows : List Row) : List (String × JValue) :=
  rows.foldl (fun obj r => if isEditableRow r then objSet obj (r.key.getD "") r.value else obj) []

/-- Characters needing escape in a serialized JSON string. -/
def escJsonChar (c : Char) : List Char :=
  if c = '"' then ['\\', '"']
  else if c = '\\' then ['\\', '\\']
  else if c = '\n' then ['\\', 'n']
  else if c = '\r' then ['\\', 'r']
  else if c = '\t' then ['\\', 't']
  else if c.toNat < 32 then
    ['\\', 'u', '0', '0', (Nat.digitChar (c.toNat / 16)), (Nat.digitChar (c.toNat % 16))]
  else [c]

/-- JSON string escaping of `JSON.stringify`. -/
def escapeJString (s : String) : String :=
  String.mk (s.toList.foldr (fun c acc => escJsonChar c ++ acc) [])

mutual

/-- `JSON.stringify` (compact form; the display call passes indent 2,
whose extra whitespace is presentation-only and not modelled). -/
def stringify : JValue → String
  | .jnull => "null"
  | .jbool true => "true"
  | .jbool false => "false"
  | .jnum q => renderNum q
  | .jstr s => "\"" ++ escapeJString s ++ "\""
  | .jarr xs => "[" ++ stringifyElems xs ++ "]"
  | .jobj fs => String.singleton lbrace ++ stringifyFields fs ++ String.singleton rbrace

/-- Comma-joined array elements of `JSON.stringify`. -/
def stringifyElems : List JValue → String
  | [] => ""
  | [v] => stringify v
  | v :: rest => stringify v ++ "," ++ stringifyElems rest

/-- Comma-joined `"key":value` members of `JSON.stringify`. -/
def stringifyFields : List (String × JValue) → String
  | [] => ""
  | [(k, v)] => "\"" ++ escapeJString k ++ "\":" ++ stringify v
  | (k, v) :: rest =>
    "\"" ++ escapeJString k ++ "\":" ++ stringify v ++ "," ++ stringifyFields rest

end

/-- `normalizeNodeData` from NodeModal: no rows yields the empty-object
text; a single unkeyed row yields the template rendering of its value;
otherwise the display object of the editable rows is serialized. -/
def normalizeNodeData (rows : List Row) : String :=
  match rows with
  | [] => "\x7b\x7d"
  | [r] =>
    if !keyTruthy r.key then jsToString r.value
    else stringify (.jobj (buildDisplayObj rows))
  | _ => stringify (.jobj (buildDisplayObj rows))

/-- `jsonPathToString` from NodeModal: a numeric segment renders bare,
a string segment double-quoted. -/
def renderSeg : Seg → String
  | .nat n => toString n
  | .str s => "\"" ++ s ++ "\""

/-- `jsonPathToString` from NodeModal: `$` for an absent or empty path,
otherwise `$[` the rendered segments joined by `][` and `]`. -/
def jsonPathToString : Option (List Seg) → String
  | none => "$"
  | some [] => "$"
  | some segs => "$[" ++ String.intercalate "][" (segs.map renderSeg) ++ "]"

/-- The modal's state relevant to an edit session: the persisted
document text (`useFile` contents), the edit buffer (`editedValues`),
the mode flag (`editMode`), whether the modal is open, and whether the
save catch block has logged a warning. -/
structure EditSession where
  contents : String
  editedValues : List (Nat × String)
  editMode : Bool
  opened : Bool
  warned : Bool
deriving Repr, DecidableEq

/-- The scalar-node test of `handleSave`:
`nodeData.text.length === 1 && !nodeData.text[0].key`. -/
def isScalarNode : List Row → Bool
  | [r] => !keyTruthy r.key
  | _ => false

/-- The composite-branch `forEach` of `handleSave`, indices starting at
`i`: for every editable row whose buffer entry is present, assign the
inferred value at the row's key under the node's path. -/
def saveCompositeFrom : Nat → List Row → List Seg → List (Nat × String) → JValue → JValue
  | _, [], _, _, acc => acc
  | i, r :: rest, path, buf, acc =>
    saveCompositeFrom (i + 1) rest path buf
      (if isEditableRow r then
        match List.lookup i buf with
        | some e => setAtPath acc path (some (r.key.getD "")) (inferValue e)
        | none => acc
      else acc)

/-- Decimal-index keys for the elements being spread. -/
def enumFields : Nat → List JValue → List (String × JValue)
  | _, [] => []
  | i, v :: rest => (toString i, v) :: enumFields (i + 1) rest

/-- The JS object spread `{ ...x }` of the composite save branch: a
shallow copy for an object; an array spreads to a plain object keyed by
its decimal indices (so an array-rooted document is rewritten to an
object); a string spreads to an object of its characters; any other
primitive spreads to the empty object. -/
def spreadToObj : JValue → JValue
  | .jobj fs => .jobj fs
  | .jarr xs => .jobj (enumFields 0 xs)
  | .jstr s => .jobj (enumFields 0 (s.toList.map (fun c => JValue.jstr (String.singleton c))))
  | _ => .jobj []

/-- The document `handleSave` passes to `JSON.stringify` for
persistence: the scalar branch replaces the whole document by the
single inferred buffered value (`editedValues[0] ?? ""`); the composite
branch starts from `{ ...jsonObj }` (the spread, an observational
identity only for object-rooted documents) and folds the editable
rows' buffered edits into it. -/
def saveResultDoc (rows : List Row) (path : List Seg) (buf : List (Nat × String))
    (jsonObj : JValue) : JValue :=
  if isScalarNode rows then
    setAtPath jsonObj path none (inferValue ((List.lookup 0 buf).getD ""))
  else
    saveCompositeFrom 0 rows path buf (spreadToObj jsonObj)

/-- `handleSave` from NodeModal as a state transition. Modelled from the
spec (§6) for the JSON format: the `contentToJson` collaborator is the
strict JSON parse and `jsonToContent` is the identity on the serialized
JSON text. Any failure is caught: the catch block logs a warning and
changes nothing else; on success the serialized new document is
persisted (`setContents`) and `onClose` closes the modal. -/
def handleSave (rows : List Row) (path : List Seg) (s : EditSession) : EditSession :=
  match jsonParse s.contents with
  | .error _ => { s with warned := true }
  | .ok jsonObj =>
    { s with
      contents := stringify (saveResultDoc rows path s.editedValues jsonObj)
      opened := false }

/-- The Save button handler: `await handleSave();` then
`setEditMode(false)` unconditionally. -/
def saveClick (rows : List Row) (path : List Seg) (s : EditSession) : EditSession :=
  let s1 := handleSave rows path s
  { s1 with editMode := false }

/-- The Cancel button handler: rebuild the buffer from the current
rows and leave edit mode. -/
def cancelClick (rows : List Row) (s : EditSession) : EditSession :=
  { s with editedValues := seedBuffer rows, editMode := false }

/-- The modal's open/node-change effect: reseed the buffer and reset to
view mode. -/
def openModal (rows : List Row) (s : EditSession) : EditSession :=
  { s with editedValues := seedBuffer rows, editMode := false }

/-- The Edit button handler: enter edit mode. -/
def enterEdit (s : EditSession) : EditSession :=
  { s with editMode := true }

/-- The edit-mode rows the modal renders, indices starting at `i`: one
`(index, key, input value)` triple per row, skipping container-typed
rows and rows without a key or keyed "details"; the input shows
`editedValues[idx] ?? String(row.value ?? "")`. -/
def renderEditRowsFrom : Nat → List (Nat × String) → List Row → List (Nat × String × String)
  | _, _, [] => []
  | i, buf, r :: rest =>
    (if r.type == "array" || r.type == "object" then []
     else if !keyTruthy r.key || r.key == some "details" then []
     else [(i, r.key.getD "", (List.lookup i buf).getD (seedString r.value))])
    ++ renderEditRowsFrom (i + 1) buf rest

/-- The full edit-mode row list rendered for a node. -/
def renderEditRows (buf : List (Nat × String)) (rows : List Row) : List (Nat × String × String) :=
  renderEditRowsFrom 0 buf rows

lemma objSet_lookup_self (fs : List (String × JValue)) (k : String) (v : JValue)
    (h : List.lookup k fs = some v) : objSet fs k v = fs := by
  induction fs with
  | nil => simp [List.lookup] at h
  | cons kv rest ih =>
    obtain ⟨k0, v0⟩ := kv
    by_cases hk : k0 = k
    · subst hk
      simp [List.lookup] at h
      simp [objSet, h]
    · have hk2 : ¬(k = k0) := fun he => hk he.symm
      have hbeq : (k == k0) = false := by simp [hk2]
      simp [List.lookup, hbeq] at h
      simp [objSet, hk, ih h]

lemma list_set_self {α : Type} (xs : List α) (n : Nat) (c : α)
    (h : xs[n]? = some c) : xs.set n c = xs := by
  induction xs generalizing n with
  | nil => simp at h
  | cons x rest ih =>
    cases n with
    | zero => simp at h; simp [List.set, h]
    | succ m => simp at h; simp [List.set, ih m h]

lemma setProp_self (doc : JValue) (p : Seg) (c : JValue)
    (h : getProp doc p = some c) : setProp doc p c = doc := by
  cases doc with
  | jobj fs =>
    cases p with
    | str k => simp [getProp] at h; simp [setProp, objSet_lookup_self fs k c h]
    | nat n => simp [getProp] at h; simp [setProp, objSet_lookup_self fs _ c h]
  | jarr xs =>
    cases p with
    | nat n =>
      simp [getProp] at h
      have hlt : n < xs.length := (List.getElem?_eq_some_iff.mp h).1
      simp [setProp, arrSet, hlt, list_set_self xs n c h]
    | str k => simp [getProp] at h
  | jnull => simp [getProp] at h
  | jbool b => simp [getProp] at h
  | jnum q => simp [getProp] at h
  | jstr s => simp [getProp] at h

lemma walkSet_self (path : List Seg) (doc t : JValue) (k : String) (v : JValue)
    (hpath : getAtPath doc path = some t)
    (hget : getProp t (Seg.str k) = some v) :
    walkSet doc path k v = doc := by
  induction path generalizing doc with
  | nil =>
    simp [getAtPath] at hpath
    subst hpath
    simp [walkSet, setProp_self doc (Seg.str k) v hget]
  | cons p rest ih =>
    simp only [getAtPath] at hpath
    cases hgp : getProp doc p with
    | none => rw [hgp] at hpath; simp at hpath
    | some c =>
      rw [hgp] at hpath
      simp only [walkSet, hgp]
      rw [ih c hpath, setProp_self doc p c hgp]

lemma seedBufferFrom_lookup_lt (rows : List Row) (n m : Nat) (hm : m < n) :
    List.lookup m (seedBufferFrom n rows) = none := by
  induction rows generalizing n with
  | nil => simp [seedBufferFrom]
  | cons r rest ih =>
    have hne : (m == n) = false := by simp [Nat.ne_of_lt hm]
    by_cases he : isEditableRow r = true
    · simp [seedBufferFrom, he, List.lookup, hne, ih (n + 1) (Nat.lt_succ_of_lt hm)]
    · simp [seedBufferFrom, he, ih (n + 1) (Nat.lt_succ_of_lt hm)]

lemma seedBufferFrom_lookup_some (rows : List Row) (n j : Nat) (e : String)
    (h : List.lookup (n + j) (seedBufferFrom n rows) = some e) :
    ∃ r, rows[j]? = some r ∧ isEditableRow r = true ∧ e = seedString r.value := by
  induction rows generalizing n j with
  | nil => simp [seedBufferFrom] at h
  | cons r rest ih =>
    by_cases he : isEditableRow r = true
    · cases j with
      | zero =>
        simp [seedBufferFrom, he, List.lookup] at h
        exact ⟨r, by simp, he, h.symm⟩
      | succ m =>
        have hne : (n + (m + 1) == n) = false := by
          simp only [beq_eq_false_iff_ne, ne_eq]
          omega
        simp only [seedBufferFrom, he, if_pos, List.singleton_append, List.lookup, hne] at h
        have h2 : List.lookup ((n + 1) + m) (seedBufferFrom (n + 1) rest) = some e := by
          rw [show (n + 1) + m = n + (m + 1) by omega]; exact h
        obtain ⟨r2, hr2, he2, hv2⟩ := ih (n + 1) m h2
        exact ⟨r2, by simpa using hr2, he2, hv2⟩
    · cases j with
      | zero =>
        simp only [seedBufferFrom, he, if_neg, Bool.false_eq_true, not_false_iff,
          List.nil_append, Nat.add_zero] at h
        rw [seedBufferFrom_lookup_lt rest (n + 1) n (Nat.lt_succ_self n)] at h
        exact absurd h (by simp)
      | succ m =>
        simp only [seedBufferFrom, he, if_neg, Bool.false_eq_true, not_false_iff,
          List.nil_append] at h
        have h2 : List.lookup ((n + 1) + m) (seedBufferFrom (n + 1) rest) = some e := by
          rw [show (n + 1) + m = n + (m + 1) by omega]; exact h
        obtain ⟨r2, hr2, he2, hv2⟩ := ih (n + 1) m h2
        exact ⟨r2, by simpa using hr2, he2, hv2⟩

lemma saveCompositeFrom_id (rows : List Row) (i : Nat) (path : List Seg)
    (buf : List (Nat × String)) (doc : JValue)
    (h : ∀ j r e, rows[j]? = some r → isEditableRow r = true →
      List.lookup (i + j) buf = some e →
      setAtPath doc path (some (r.key.getD "")) (inferValue e) = doc) :
    saveCompositeFrom i rows path buf doc = doc := by
  induction rows generalizing i with
  | nil => simp [saveCompositeFrom]
  | cons r rest ih =>
    have hstep :
        (if isEditableRow r then
          match List.lookup i buf with
          | some e => setAtPath doc path (some (r.key.getD "")) (inferValue e)
          | none => doc
        else doc) = doc := by
      by_cases he : isEditableRow r = true
      · cases hl : List.lookup i buf with
        | none => simp [he, hl]
        | some e =>
          have := h 0 r e (by simp) he (by simpa using hl)
          simp [he, hl, this]
      · simp [he]
    simp only [saveCompositeFrom, hstep]
    exact ih (i + 1) (fun j r2 e hj he2 hl =>
      h (j + 1) r2 e (by simpa using hj) he2
        (by rw [show i + (j + 1) = (i + 1) + j by omega]; exact hl))

lemma seedBufferFrom_mem (rows : List Row) (n i : Nat) (s : String)
    (h : (i, s) ∈ seedBufferFrom n rows) :
    n ≤ i ∧ ∃ r, rows[i - n]? = some r ∧ isEditableRow r = true := by
  induction rows generalizing n with
  | nil => simp [seedBufferFrom] at h
  | cons r rest ih =>
    by_cases he : isEditableRow r = true
    · simp only [seedBufferFrom, he, if_pos, List.singleton_append, List.mem_cons] at h
      cases h with
      | inl heq =>
        injection heq with hi hs
        subst hi
        exact ⟨Nat.le_refl _, r, by simp [Nat.sub_self], he⟩
      | inr hmem =>
        obtain ⟨hle, r2, hr2, he2⟩ := ih (n + 1) hmem
        refine ⟨Nat.le_of_succ_le hle, r2, ?_, he2⟩
        have : i - n = (i - (n + 1)) + 1 := by omega
        rw [this]
        simpa using hr2
    · simp only [seedBufferFrom, he, if_neg, Bool.false_eq_true, not_false_iff,
        List.nil_append] at h
      obtain ⟨hle, r2, hr2, he2⟩ := ih (n + 1) h
      refine ⟨Nat.le_of_succ_le hle, r2, ?_, he2⟩
      have : i - n = (i - (n + 1)) + 1 := by omega
      rw [this]
      simpa using hr2

lemma foldl_skip_filter {α β : Type} (p : α → Bool) (g : β → α → β) :
    ∀ (l : List α) (acc : β),
      l.foldl (fun b a => if p a then g b a else b) acc =
        (l.filter p).foldl (fun b a => if p a then g b a else b) acc := by
  intro l
  induction l with
  | nil => intro acc; rfl
  | cons x xs ih =>
    intro acc
    by_cases hp : p x = true
    · simp [List.foldl, List.filter, hp, ih]
    · simp [List.foldl, List.filter, hp, ih]

lemma buildDisplayObj_filter (rows : List Row) :
    buildDisplayObj rows = buildDisplayObj (rows.filter (fun r => isEditableRow r)) := by
  unfold buildDisplayObj
  rw [foldl_skip_filter (fun r => isEditableRow r)
    (fun obj r => objSet obj (r.key.getD "") r.value) rows []]

lemma string_foldl_append_init (l : List String) (a b : String) :
    l.foldl (fun r s => r ++ s) (a ++ b) = a ++ l.foldl (fun r s => r ++ s) b := by
  induction l generalizing b with
  | nil => simp [List.foldl]
  | cons x xs ih => simp only [List.foldl]; rw [String.append_assoc, ih]

lemma string_join_cons (x : String) (xs : List String) :
    String.join (x :: xs) = x ++ String.join xs := by
  simp only [String.join, List.foldl]
  have h := string_foldl_append_init xs x ""
  rw [String.append_empty] at h
  rw [String.empty_append]
  exact h

lemma intercalate_go_bracket (xs : List String) (acc : String) :
    String.intercalate.go acc "][" xs ++ "]" =
      acc ++ "]" ++ String.join (xs.map (fun s => "[" ++ s ++ "]")) := by
  induction xs generalizing acc with
  | nil => simp [String.intercalate.go, String.join]
  | cons x t ih =>
    simp only [String.intercalate.go, List.map]
    rw [ih, string_join_cons]
    have hbr : ("]" : String) ++ "[" = "][" := rfl
    rw [← hbr]
    simp only [String.append_assoc]

lemma jsonPathToString_cons (a : Seg) (t : List Seg) :
    jsonPathToString (some (a :: t)) =
      "$" ++ String.join ((a :: t).map (fun s => "[" ++ renderSeg s ++ "]")) := by
  simp only [jsonPathToString, List.map, String.intercalate]
  rw [String.append_assoc, intercalate_go_bracket, string_join_cons, List.map_map]
  have h1 : ("$[" : String) = "$" ++ "[" := rfl
  rw [h1]
  simp only [String.append_assoc]
  rfl

/-- The C1 scenario node: a single unkeyed numeric row. -/
def scalarRows : List Row := [{ key := none, value := .jnum 5, type := "number" }]

/-- The C1 scenario path. -/
def scalarPath : List Seg := [.str "count"]

/-- The C1 scenario edit buffer. -/
def scalarBuf : List (Nat × String) := [(0, "9")]

/-- The C1 scenario document text. -/
def scalarContents : String := "\x7b\"count\":5,\"other\":1\x7d"

/-- The C1 scenario parsed document. -/
def scalarDoc : JValue := .jobj [("count", .jnum 5), ("other", .jnum 1)]

/-- The C3 scenario node rows. -/
def compositeRows : List Row := [{ key := some "name", value := .jstr "Alice", type := "string" }]

/-- The C3 scenario path. -/
def compositePath : List Seg := [.str "user"]

/-- The C3 scenario edit buffer. -/
def compositeBuf : List (Nat × String) := [(0, "Carol")]

/-- The C3 scenario document text. -/
def compositeContents : String := "\x7b\"user\":\x7b\"name\":\"Bob\",\"age\":30\x7d\x7d"

/-- The C3 scenario parsed document. -/
def compositeDoc : JValue := .jobj [("user", .jobj [("name", .jstr "Bob"), ("age", .jnum 30)])]

/-- The C3 scenario expected saved document. -/
def compositeExpected : JValue :=
  .jobj [("user", .jobj [("name", .jstr "Carol"), ("age", .jnum 30)])]

/-- The C3 scenario session in edit mode. -/
def compositeSession : EditSession :=
  { contents := compositeContents, editedValues := compositeBuf, editMode := true,
    opened := true, warned := false }

/-- A session whose stored contents are not valid JSON. -/
def badSession : EditSession :=
  { contents := "not json", editedValues := [(0, "x")], editMode := true,
    opened := true, warned := false }

/-- A composite node whose string value "5" does not survive the
stringify-then-infer round trip. -/
def numericStringRows : List Row := [{ key := some "name", value := .jstr "5", type := "string" }]

/-- Document matching `numericStringRows` at path ["user"]. -/
def numericStringDoc : JValue := .jobj [("user", .jobj [("name", .jstr "5")])]

/-- An edit session for the `numericStringRows` node with a mutated
buffer. -/
def numericStringSession : EditSession :=
  { contents := "\x7b\"user\":\x7b\"name\":\"5\"\x7d\x7d", editedValues := [(0, "edited")],
    editMode := true, opened := true, warned := false }

/-- Document matching `compositeRows` at path ["user"], agreeing with
the row value. -/
def aliceDoc : JValue := .jobj [("user", .jobj [("name", .jstr "Alice")])]

/-- The container of `aliceDoc` at path ["user"]. -/
def aliceInner : JValue := .jobj [("name", .jstr "Alice")]

/-- C1: the claimed scalar-node save postcondition fails in the code:
for the node with rows `[{value:5,type:"number"}]` at path `["count"]`,
buffer `{0:"9"}`, and document `{"count":5,"other":1}`, `handleSave`
uses the return of `setAtPath(..., null, 9)` — which is the bare value
9 — as the whole new document, so the persisted document is `9`, not
the claimed `{"count":9,"other":1}`: the sibling field "other" is
destroyed rather than preserved. -/
theorem C1_scalar_save_replaces_document :
    jsonParse scalarContents = Except.ok scalarDoc ∧
    saveResultDoc scalarRows scalarPath scalarBuf scalarDoc = JValue.jnum 9 ∧
    JValue.jnum 9 ≠ JValue.jobj [("count", JValue.jnum 9), ("other", JValue.jnum 1)] :=
  ⟨rfl, rfl, fun h => JValue.noConfusion h⟩

/-- C2 counterexample: the claim that on a save failure the session
remains in EDIT state is false — with unparseable stored contents the
Save button still exits edit mode, because `setEditMode(false)` runs
unconditionally after `handleSave`. -/
theorem C2_counterexample :
    ¬ (∀ (rows : List Row) (path : List Seg) (s : EditSession),
        s.editMode = true → (jsonParse s.contents).isOk = false →
        (saveClick rows path s).warned = true ∧
        (saveClick rows path s).opened = s.opened ∧
        (saveClick rows path s).editMode = true) := by
  intro h
  have h2 := (h compositeRows compositePath badSession rfl rfl).2.2
  have h3 : (saveClick compositeRows compositePath badSession).editMode = false := rfl
  rw [h3] at h2
  exact Bool.noConfusion h2

/-- C2 amended: on a parse failure inside save the error is caught and
logged (warned) without propagating, the modal stays open, and the
document and buffer are unchanged — but edit mode is exited
unconditionally by the Save button, so the session moves to VIEW even
on failure. -/
theorem C2_amended_save_failure (rows : List Row) (path : List Seg) (s : EditSession)
    (e : Unit) (hfail : jsonParse s.contents = Except.error e) :
    (saveClick rows path s).warned = true ∧
    (saveClick rows path s).opened = s.opened ∧
    (saveClick rows path s).contents = s.contents ∧
    (saveClick rows path s).editedValues = s.editedValues ∧
    (saveClick rows path s).editMode = false := by
  simp [saveClick, handleSave, hfail]

/-- Witness for `C2_amended_save_failure` at the concrete session with
unparseable contents. -/
theorem C2_amended_save_failure_witness :
    (saveClick compositeRows compositePath badSession).warned = true ∧
    (saveClick compositeRows compositePath badSession).opened = badSession.opened ∧
    (saveClick compositeRows compositePath badSession).contents = badSession.contents ∧
    (saveClick compositeRows compositePath badSession).editedValues =
      badSession.editedValues ∧
    (saveClick compositeRows compositePath badSession).editMode = false :=
  C2_amended_save_failure compositeRows compositePath badSession () rfl

/-- C3: composite-node save frame property: editing the "name" row of
the node at path `["user"]` to "Carol" in document
`{"user":{"name":"Bob","age":30}}` yields
`{"user":{"name":"Carol","age":30}}`; the sibling field "age" under the
same path is unchanged, both at the document level and through the full
parse-save-persist pipeline. -/
theorem C3_composite_save_frame :
    jsonParse compositeContents = Except.ok compositeDoc ∧
    saveResultDoc compositeRows compositePath compositeBuf compositeDoc =
      compositeExpected ∧
    jsonParse (saveClick compositeRows compositePath compositeSession).contents =
      Except.ok compositeExpected :=
  ⟨rfl, rfl, rfl⟩

/-- C4: for a scalar node (one row whose key is absent or empty) the
seeding creates no buffer entry, the edit mode renders no input row,
the scalar save branch reads the buffered value as the empty string,
that infers to null, and the save persists null as the new value. -/
theorem C4_scalar_node_saves_null (r : Row) (path : List Seg) (doc : JValue)
    (hkey : keyTruthy r.key = false) :
    seedBuffer [r] = [] ∧
    renderEditRows (seedBuffer [r]) [r] = [] ∧
    (List.lookup 0 (seedBuffer [r])).getD "" = "" ∧
    inferValue "" = JValue.jnull ∧
    saveResultDoc [r] path (seedBuffer [r]) doc = JValue.jnull := by
  have hseed : seedBuffer [r] = [] := by
    simp [seedBuffer, seedBufferFrom, isEditableRow, hkey]
  refine ⟨hseed, ?_, ?_, rfl, ?_⟩
  · by_cases ht : (r.type == "array" || r.type == "object") = true
    · simp [renderEditRows, renderEditRowsFrom, ht]
    · simp [renderEditRows, renderEditRowsFrom, ht, hkey]
  · rw [hseed]; rfl
  · have hscalar : isScalarNode [r] = true := by simp [isScalarNode, hkey]
    rw [hseed]
    simp [saveResultDoc, hscalar, setAtPath, List.lookup, inferValue]

/-- Witness for `C4_scalar_node_saves_null` at the C1 scenario node. -/
theorem C4_scalar_node_saves_null_witness :
    seedBuffer scalarRows = [] ∧
    renderEditRows (seedBuffer scalarRows) scalarRows = [] ∧
    (List.lookup 0 (seedBuffer scalarRows)).getD "" = "" ∧
    inferValue "" = JValue.jnull ∧
    saveResultDoc scalarRows scalarPath (seedBuffer scalarRows) scalarDoc = JValue.jnull :=
  C4_scalar_node_saves_null { key := none, value := .jnum 5, type := "number" }
    scalarPath scalarDoc rfl

/-- C5 counterexample: after `cancel()` the buffer is indeed reset to
the node's pre-edit values, but a save immediately after cancel does
not always reproduce the original document — for the row value `"5"`
(a string), the reseeded buffer text "5" re-infers as the number 5, so
the saved document differs from the original. -/
theorem C5_counterexample :
    (cancelClick numericStringRows numericStringSession).editedValues =
      seedBuffer numericStringRows ∧
    saveResultDoc numericStringRows compositePath
        (cancelClick numericStringRows numericStringSession).editedValues
        numericStringDoc
      ≠ numericStringDoc := by
  refine ⟨rfl, ?_⟩
  intro h
  have h2 : saveResultDoc numericStringRows compositePath
      (cancelClick numericStringRows numericStringSession).editedValues
      numericStringDoc =
      JValue.jobj [("user", JValue.jobj [("name", JValue.jnum 5)])] := rfl
  rw [h2] at h
  simp [numericStringDoc] at h

/-- C5 amended: `cancel()` resets the buffer to the current node's
pre-edit values (`String(value)`, null becoming ""), and for a
composite node a save immediately after cancel reproduces the original
document, provided the document is object-rooted (the `{ ...jsonObj }`
spread is then an observational identity; an array root would instead
be rewritten to an index-keyed object) and each editable row's value
survives the stringify-then-infer round trip and agrees with the
document at the node's path (as it does when the rows were projected
from that document); without these provisos the reseeded text can
re-infer to a different value (see the string "5"). -/
theorem C5_cancel_then_save (rows : List Row) (path : List Seg) (t : JValue)
    (fs : List (String × JValue)) (s : EditSession)
    (hscalar : isScalarNode rows = false)
    (hpath : getAtPath (JValue.jobj fs) path = some t)
    (hrows : ∀ r, r ∈ rows → isEditableRow r = true →
      inferValue (seedString r.value) = r.value ∧
      getProp t (Seg.str (r.key.getD "")) = some r.value) :
    (cancelClick rows s).editedValues = seedBuffer rows ∧
    (cancelClick rows s).editMode = false ∧
    saveResultDoc rows path (cancelClick rows s).editedValues (JValue.jobj fs) =
      JValue.jobj fs := by
  refine ⟨rfl, rfl, ?_⟩
  show saveResultDoc rows path (seedBuffer rows) (JValue.jobj fs) = JValue.jobj fs
  unfold saveResultDoc
  rw [hscalar]
  simp only [Bool.false_eq_true, if_false, spreadToObj]
  apply saveCompositeFrom_id
  intro j r e hj he hl
  obtain ⟨r2, hr2, he2, hv2⟩ := seedBufferFrom_lookup_some rows 0 j e (by simpa using hl)
  rw [hj] at hr2
  injection hr2 with hr2
  subst hr2
  obtain ⟨hround, hgp⟩ := hrows r (List.getElem?_mem hj) he
  subst hv2
  simp only [setAtPath]
  rw [hround]
  exact walkSet_self path (JValue.jobj fs) t (r.key.getD "") r.value hpath hgp

/-- Witness for `C5_cancel_then_save`: the "name"="Alice" node against
the matching object-rooted document. -/
theorem C5_cancel_then_save_witness :
    (cancelClick compositeRows compositeSession).editedValues = seedBuffer compositeRows ∧
    (cancelClick compositeRows compositeSession).editMode = false ∧
    saveResultDoc compositeRows compositePath
        (cancelClick compositeRows compositeSession).editedValues
        (JValue.jobj [("user", aliceInner)]) =
      JValue.jobj [("user", aliceInner)] :=
  C5_cancel_then_save compositeRows compositePath aliceInner [("user", aliceInner)]
    compositeSession rfl rfl
    (by
      intro r hr he
      simp only [compositeRows, List.mem_singleton] at hr
      subst hr
      exact ⟨rfl, rfl⟩)

/-- C6: the editable-row predicate governs both projections: every edit
buffer entry comes from a row passing the predicate (scalar type,
present key, key not "details"), and the canonical display object is
built exactly from the rows passing the predicate — rows failing it
contribute to neither. -/
theorem C6_editable_row_invariant (rows : List Row) :
    (∀ i s, (i, s) ∈ seedBuffer rows →
      ∃ r, rows[i]? = some r ∧ isEditableRow r = true) ∧
    buildDisplayObj rows = buildDisplayObj (rows.filter (fun r => isEditableRow r)) := by
  constructor
  · intro i s hmem
    obtain ⟨-, r, hr, he⟩ := seedBufferFrom_mem rows 0 i s hmem
    exact ⟨r, by simpa using hr, he⟩
  · exact buildDisplayObj_filter rows

/-- Witness for `C6_editable_row_invariant` at the C3 node, whose seeded
buffer holds `(0, "Alice")`. -/
theorem C6_editable_row_invariant_witness :
    ∃ r, compositeRows[0]? = some r ∧ isEditableRow r = true :=
  (C6_editable_row_invariant compositeRows).1 0 "Alice" (by decide)

/-- C7: `setAtPath` materializes an absent slot during the walk as an
empty array when the next path segment is numeric and as an empty
object otherwise; in particular on the empty document with path
`["a","b"]`, key `"c"`, value 1 it produces
`{"a":{"b":{"c":1}}}`. -/
theorem C7_missing_intermediate_creation :
    (∀ (doc : JValue) (p : Seg) (rest : List Seg) (k : String) (v : JValue),
      getProp doc p = none →
      walkSet doc (p :: rest) k v =
        setProp doc p
          (walkSet (if nextIsNum rest then JValue.jarr [] else JValue.jobj [])
            rest k v)) ∧
    setAtPath (JValue.jobj []) [Seg.str "a", Seg.str "b"] (some "c") (JValue.jnum 1) =
      JValue.jobj [("a", JValue.jobj [("b", JValue.jobj [("c", JValue.jnum 1)])])] := by
  constructor
  · intro doc p rest k v h
    simp only [walkSet, h]
  · rfl

/-- Witness for `C7_missing_intermediate_creation` at a one-segment path
absent from the empty object. -/
theorem C7_missing_intermediate_creation_witness :
    walkSet (JValue.jobj []) [Seg.str "x"] "k" JValue.jnull =
      setProp (JValue.jobj []) (Seg.str "x")
        (walkSet (if nextIsNum [] then JValue.jarr [] else JValue.jobj [])
          [] "k" JValue.jnull) :=
  C7_missing_intermediate_creation.1 (JValue.jobj []) (Seg.str "x") [] "k"
    JValue.jnull rfl

/-- C8: the value-inference postconditions: the empty string infers to
null, "42" to the number 42, "true" to the boolean true, a JSON object
literal to the object, and "hello" to the opaque string, following the
chain empty / strict JSON parse / numeric pattern / boolean literals /
string. -/
theorem C8_infer_examples :
    inferValue "" = JValue.jnull ∧
    inferValue "42" = JValue.jnum 42 ∧
    inferValue "true" = JValue.jbool true ∧
    inferValue "\x7b\"a\":1\x7d" = JValue.jobj [("a", JValue.jnum 1)] ∧
    inferValue "hello" = JValue.jstr "hello" :=
  ⟨rfl, rfl, rfl, rfl, rfl⟩

/-- C9: `inferValue` is total and deterministic — it is a function into
values (every input has exactly one result, and equal inputs give equal
results), and a JSON-parse failure is an internal branch: it selects the
fallback chain instead of propagating. -/
theorem C9_infer_total_deterministic (r : String) :
    (∃ v : JValue, inferValue r = v ∧ ∀ w : JValue, inferValue r = w → w = v) ∧
    (r ≠ "" → ∀ e : Unit, jsonParse r = Except.error e → inferValue r = inferFallback r) := by
  constructor
  · exact ⟨inferValue r, rfl, fun w hw => hw.symm⟩
  · intro hne e he
    simp [inferValue, hne, he]

/-- Witness for `C9_infer_total_deterministic` at the unparseable input
"hello". -/
theorem C9_infer_total_deterministic_witness :
    inferValue "hello" = inferFallback "hello" :=
  (C9_infer_total_deterministic "hello").2 (by decide) () rfl

/-- C10: `jsonPathToString` renders the absent and the empty path as
`$`, renders every non-empty path as `$` followed by each segment in
order — numeric segments as `[N]`, string segments as `["key"]` — and
in particular renders `["a", 1, "b"]` as `$["a"][1]["b"]`. -/
theorem C10_format_path :
    jsonPathToString none = "$" ∧
    jsonPathToString (some []) = "$" ∧
    (∀ segs : List Seg, segs ≠ [] →
      jsonPathToString (some segs) =
        "$" ++ String.join (segs.map (fun s => "[" ++ renderSeg s ++ "]"))) ∧
    jsonPathToString (some [Seg.str "a", Seg.nat 1, Seg.str "b"]) =
      "$[\"a\"][1][\"b\"]" := by
  refine ⟨rfl, rfl, ?_, rfl⟩
  intro segs hne
  cases segs with
  | nil => exact absurd rfl hne
  | cons a t => exact jsonPathToString_cons a t

/-- Witness for `C10_format_path` at the one-segment path `[0]`. -/
theorem C10_format_path_witness :
    jsonPathToString (some [Seg.nat 0]) =
      "$" ++ String.join ([Seg.nat 0].map (fun s => "[" ++ renderSeg s ++ "]")) :=
  C10_format_path.2.2.1 [Seg.nat 0] (by decide)
